import Mathlib

/-!
Verification development for the ReTool-for-Life wellness-agent backend.

The definitions below are a shallow embedding of the Python sources:
`backend/orchestrator.py` (variant generation, scenario evaluation,
scoring, RLAIF rewards and regeneration), `backend/main.py` (selection
of the best agent and the demo-sequence upgrade step),
`backend/tools.py` (the approval queue) and `backend/agents_sdk.py`
(agent display names).  Python floats are modelled as rationals,
Python dicts keyed by strings as insertion-ordered association lists,
and the external LLM completion backend as an oracle parameter that
may fail (`Except`).
-/

namespace Ambient

/-! ## String helpers: Python's case-insensitive substring test -/

/-- Boolean prefix test on character lists (mirrors Python `startswith`). -/
def isPrefixOfB : List Char → List Char → Bool
  | [], _ => true
  | _ :: _, [] => false
  | a :: as, b :: bs => a == b && isPrefixOfB as bs

/-- Boolean infix test on character lists (mirrors Python `needle in hay`):
the empty needle is contained in every string. -/
def isInfixOfB (needle : List Char) : List Char → Bool
  | [] => isPrefixOfB needle []
  | b :: bs => isPrefixOfB needle (b :: bs) || isInfixOfB needle bs

/-- Lower-case a character list (model of Python `str.lower`). -/
def lowerChars (l : List Char) : List Char := l.map Char.toLower

/-- `containsCI hay needle` models Python `needle.lower() in hay.lower()`. -/
def containsCI (hay needle : String) : Bool :=
  isInfixOfB (lowerChars needle.data) (lowerChars hay.data)

/-! ## Insertion-ordered dictionaries (Python `dict` on string keys) -/

/-- Python `d[k] = v`: overwrite in place if the key exists (keeping its
position; dict keys are unique, so replacing the first occurrence is
exact), otherwise append at the end. -/
def dictInsert {α : Type} (m : List (String × α)) (k : String) (v : α) :
    List (String × α) :=
  match m with
  | [] => [(k, v)]
  | p :: rest => if p.1 = k then (k, v) :: rest else p :: dictInsert rest k v

/-- Python `d.get(k)`: value of the first (hence unique) entry for `k`. -/
def dictFind? {α : Type} (m : List (String × α)) (k : String) : Option α :=
  (m.find? (fun p => p.1 == k)).map (fun p => p.2)

/-- First-occurrence deduplication, as done by the `created_types` set in
`generate_agent_suite` (order of first appearance is kept). -/
def firstDedup (l : List String) : List String :=
  l.foldl (fun acc x => if x ∈ acc then acc else acc ++ [x]) []

/-! ## Data model -/

/-- A completion response as consumed by `_calculate_score`: the response
text and the list of invoked tool names. -/
structure AgentResponse where
  message : String
  tool_calls : List String
  deriving DecidableEq, Repr

/-- A test scenario (`load_test_scenarios`): name, prompt, expected-outcome
keywords and required tool names. -/
structure Scenario where
  name : String
  prompt : String
  expected_outcomes : List String
  required_tools : List String
  deriving DecidableEq, Repr

/-- A candidate agent configuration: the template tag chosen by
`generate_agent_suite` and the model tier it was constructed with. -/
structure Variant where
  agent_type : String
  model : String
  deriving DecidableEq, Repr

/-- One recorded evaluation trace entry (`evaluate_agents`): the success
branch stores the scenario name, score and response text; the failure
branch stores the scenario name, score `0.5` and the raw error string. -/
structure TraceEntry where
  scenario : String
  score : ℚ
  response : Option String
  error : Option String
  deriving DecidableEq, Repr

/-- The five-dimensional reward vector of `calculate_daily_rewards`. -/
structure RewardVector where
  task_completion : ℚ
  user_engagement : ℚ
  timing_accuracy : ℚ
  resource_efficiency : ℚ
  safety_compliance : ℚ
  deriving DecidableEq, Repr

/-- One entry of an action-trace log: its `status` field and the rendering
of its remaining fields (Python's `str(a)` joins fields with separators,
modelled by the `", "` below when the full rendering is needed). -/
structure ActionEntry where
  status : String
  text : String
  deriving DecidableEq, Repr

/-- Model of Python `str(a)` for a trace-log entry: all fields appear,
separated by punctuation. -/
def ActionEntry.render (a : ActionEntry) : String :=
  a.text ++ ", " ++ a.status

/-! ## `tools.py`: the approval queue -/

/-- An entry of the `approval_queue` dict: the action kind (`"sms"` or
`"purchase"`), its payload and its `status` string. -/
structure ApprovalEntry where
  kind : String
  message : String
  to_number : String
  status : String
  deriving DecidableEq, Repr

/-- The mutable module state of `tools.py`: the approval queue (a dict in
insertion order) and the log of actually executed outbound sends (the
side effect performed by `send_sms` when `require_approval` is false). -/
structure ToolsState where
  approval_queue : List (String × ApprovalEntry)
  executed_sends : List (String × String)
  deriving DecidableEq, Repr

/-- Result of `send_sms`. -/
inductive SmsResult where
  | pending_approval (approval_id : String)
  | sent
  deriving DecidableEq, Repr

/-- `send_sms(message, to_number, require_approval)`.  With approval
required, the action is queued as pending under a fresh id (the uuid is
modelled by the `fresh_id` parameter); otherwise the message is sent
immediately (the actual side effect). -/
def send_sms (st : ToolsState) (message to_number : String)
    (require_approval : Bool) (fresh_id : String) : ToolsState × SmsResult :=
  if require_approval then
    ({ st with approval_queue :=
        st.approval_queue ++
          [(fresh_id, ⟨"sms", message, to_number, "pending"⟩)] },
     .pending_approval fresh_id)
  else
    ({ st with executed_sends := st.executed_sends ++ [(message, to_number)] },
     .sent)

/-- Result of `approve_action`: either the error dict
`{"status": "error", "message": "Approval ID not found"}` or the success
dict `{"status": "approved", ...}`. -/
inductive ApproveResult where
  | error (message : String)
  | approved (approval_id : String)
  deriving DecidableEq, Repr

/-- `approve_action(approval_id)`: fails only when the id is unknown;
otherwise it marks the entry approved and, for an `"sms"` entry,
synchronously executes the deferred send via
`send_sms(..., require_approval=False)`.  The current status of the entry
is never consulted. -/
def approve_action (st : ToolsState) (approval_id : String) :
    ToolsState × ApproveResult :=
  match dictFind? st.approval_queue approval_id with
  | none => (st, .error "Approval ID not found")
  | some entry =>
      let entry2 := { entry with status := "approved" }
      let q2 := dictInsert st.approval_queue approval_id entry2
      let st1 := { st with approval_queue := q2 }
      if entry.kind = "sms" then
        let (st2, _) := send_sms st1 entry.message entry.to_number false ""
        (st2, .approved approval_id)
      else
        (st1, .approved approval_id)

/-- `get_pending_approvals()`: the queue entries whose status is
`"pending"`, in creation order. -/
def get_pending_approvals (st : ToolsState) : List (String × ApprovalEntry) :=
  st.approval_queue.filter (fun p => p.2.status == "pending")

/-! ## `agents_sdk.py`: agent display names -/

/-- The display name each agent class derives from the user profile
(`agents_sdk.py`): every SDK specialty class inherits the base
`WellnessAgentSDK.__init__`, so they all share the name
`"Wellness Agent for <user>"`; only the WhatsApp classes override it. -/
def agent_display_name (agent_type : String) (user_name : String) : String :=
  if agent_type = "whatsapp_sleep_specialist" then
    "WhatsApp Sleep Agent for " ++ user_name
  else if agent_type = "whatsapp_wellness" then
    "WhatsApp Wellness Agent for " ++ user_name
  else
    "Wellness Agent for " ++ user_name

/-- The key `f"{agent.name} ({agent.model})"` under which
`evaluate_agents` records scores and traces. -/
def agent_key (v : Variant) (user_name : String) : String :=
  agent_display_name v.agent_type user_name ++ " (" ++ v.model ++ ")"

/-! ## `orchestrator.py`: variant generation -/

/-- The `goal_agent_map` of `generate_agent_suite`.  `prefers_whatsapp`
is the profile's messaging-channel preference; `whatsapp_available`
records whether the WhatsApp agent template was importable. -/
def goal_agent_map (prefers_whatsapp whatsapp_available : Bool)
    (goal : String) : Option String :=
  if goal = "better_sleep" then
    some (if prefers_whatsapp && whatsapp_available then
      "whatsapp_sleep_specialist" else "sleep_specialist")
  else if goal = "stress_reduction" then some "stress_manager"
  else if goal = "stress_management" then some "stress_manager"
  else if goal = "exercise_consistency" then some "fitness_coach"
  else if goal = "hydration" then some "nutrition_advisor"
  else none

/-- One step of the `for goal in user_goals` loop: the accumulator holds
the variants built so far and the `created_types` set (as a list in
first-insertion order). -/
def suiteStep (pw wa : Bool) (acc : List Variant × List String)
    (goal : String) : List Variant × List String :=
  match goal_agent_map pw wa goal with
  | none => acc
  | some t =>
      if t ∈ acc.2 then acc
      else (acc.1 ++ [⟨t, "gpt-4.1"⟩, ⟨t, "gpt-4.1-mini"⟩], acc.2 ++ [t])

/-- `generate_agent_suite(user_profile)`: for each goal mapped to a
not-yet-created template, two variants (standard and mini tier) are
appended; if nothing matched, a single generic `WellnessAgent` with the
standard tier is returned. -/
def generate_agent_suite (goals : List String) (pw wa : Bool) :
    List Variant :=
  let r := goals.foldl (suiteStep pw wa) ([], [])
  if r.1 = [] then [⟨"general_wellness", "gpt-4.1"⟩] else r.1

/-! ## `orchestrator.py`: scoring and evaluation -/

/-- `_calculate_score(response, expected_outcomes, required_tools)`.
The tool term is added only when required tools exist and at least one
tool call was made; the outcome term only when outcomes exist and the
message is non-empty; when neither requirement exists the score is
overwritten with the base credit. -/
def calculate_score (response : AgentResponse)
    (expected_outcomes required_tools : List String) : ℚ :=
  let tool_part : ℚ :=
    if required_tools ≠ [] ∧ response.tool_calls ≠ [] then
      ((response.tool_calls.dedup.filter
          (fun t => decide (t ∈ required_tools))).length : ℚ) /
        (required_tools.length : ℚ) * (1/2)
    else 0
  let outcome_part : ℚ :=
    if expected_outcomes ≠ [] ∧ response.message ≠ "" then
      ((expected_outcomes.countP
          (fun o => containsCI response.message o)) : ℚ) /
        (expected_outcomes.length : ℚ) * (1/2)
    else 0
  if required_tools = [] ∧ expected_outcomes = [] then
    if response.message ≠ "" then 4/5 else 1/2
  else tool_part + outcome_part

/-- The completion backend as seen by evaluation: for a (variant,
scenario) pair it either returns a response or raises (`Except.error`
carries the raw Python exception string). -/
def Oracle : Type := Variant → Scenario → Except String AgentResponse

/-- The body of the `for scenario in test_scenarios` loop of
`evaluate_agents`: on success the response is scored, on failure partial
credit `0.5` plus the raw error string is recorded. -/
def run_scenario (respond : Oracle) (a : Variant) (s : Scenario) :
    ℚ × TraceEntry :=
  match respond a s with
  | .ok r =>
      let sc := calculate_score r s.expected_outcomes s.required_tools
      (sc, ⟨s.name, sc, some r.message, none⟩)
  | .error e => (1/2, ⟨s.name, 1/2, none, some e⟩)

/-- Per-agent evaluation: total score and trace list accumulated over all
scenarios, then averaged (`0` for an empty scenario list). -/
def evaluate_agent (respond : Oracle) (a : Variant)
    (scens : List Scenario) : ℚ × List TraceEntry :=
  let r := scens.foldl
    (fun acc s =>
      let p := run_scenario respond a s
      (acc.1 + p.1, acc.2 ++ [p.2]))
    ((0 : ℚ), ([] : List TraceEntry))
  (if scens = [] then 0 else r.1 / (scens.length : ℚ), r.2)

/-- One iteration of the `for agent in agents` loop of
`evaluate_agents`: record the agent's average and traces under its key. -/
def evalStep (respond : Oracle) (scens : List Scenario) (user_name : String)
    (acc : List (String × ℚ) × List (String × List TraceEntry))
    (a : Variant) :
    List (String × ℚ) × List (String × List TraceEntry) :=
  let p := evaluate_agent respond a scens
  (dictInsert acc.1 (agent_key a user_name) p.1,
   dictInsert acc.2 (agent_key a user_name) p.2)

/-- `evaluate_agents(agents, test_scenarios)`: per-agent averages and
traces, keyed by `f"{agent.name} ({agent.model})"` in two dicts. -/
def evaluate_agents (respond : Oracle) (agents : List Variant)
    (scens : List Scenario) (user_name : String) :
    List (String × ℚ) × List (String × List TraceEntry) :=
  agents.foldl (evalStep respond scens user_name) ([], [])

/-! ## `orchestrator.py`: RLAIF rewards -/

/-- `_evaluate_task_completion`: completed entries over all entries,
`0` for an empty log. -/
def evaluate_task_completion (actions : List ActionEntry) : ℚ :=
  if actions = [] then 0
  else ((actions.countP (fun a => a.status == "completed")) : ℚ) /
    (actions.length : ℚ)

/-- `_evaluate_engagement`: fixed demo constant. -/
def evaluate_engagement (_actions : List ActionEntry) : ℚ := 85/100

/-- `_evaluate_timing`: fixed demo constant. -/
def evaluate_timing (_actions : List ActionEntry) : ℚ := 9/10

/-- `_evaluate_efficiency`: fixed demo constant. -/
def evaluate_efficiency (_actions : List ActionEntry) : ℚ := 8/10

/-- `_evaluate_safety`: `1.0` unless some entry's rendering mentions
`"approval"` (case-insensitively), then `0.95`. -/
def evaluate_safety (actions : List ActionEntry) : ℚ :=
  if (actions.filter (fun a => containsCI a.render "approval")) = [] then 1
  else 95/100

/-- `calculate_daily_rewards(agent_id, agent_actions)` (the returned
reward dict; the append-only history bookkeeping is not needed by the
claims below). -/
def calculate_daily_rewards (actions : List ActionEntry) : RewardVector :=
  { task_completion := evaluate_task_completion actions
    user_engagement := evaluate_engagement actions
    timing_accuracy := evaluate_timing actions
    resource_efficiency := evaluate_efficiency actions
    safety_compliance := evaluate_safety actions }

/-- The reward dict in its Python insertion order, as iterated by
`rewards.items()` and `rewards.values()`. -/
def RewardVector.items (r : RewardVector) : List (String × ℚ) :=
  [("task_completion", r.task_completion),
   ("user_engagement", r.user_engagement),
   ("timing_accuracy", r.timing_accuracy),
   ("resource_efficiency", r.resource_efficiency),
   ("safety_compliance", r.safety_compliance)]

/-- `sum(rewards.values()) / len(rewards)`: the aggregate reward. -/
def RewardVector.aggregate (r : RewardVector) : ℚ :=
  (r.task_completion + r.user_engagement + r.timing_accuracy +
    r.resource_efficiency + r.safety_compliance) / 5

/-! ## `orchestrator.py` / `main.py`: regeneration -/

/-- An agent as `update_agent` *assumes* it to be: the constructor
arguments (profile and model), the instructions text and the
conversation history it reads and copies.  Of the repository's agent
classes only `agents.py`'s `WellnessAgent` — which the orchestrator
never instantiates — actually carries `instructions` and
`conversation_history`; the deployable classes do not (see
`SdkAgentRec` below), so on them the reads raise. -/
structure AgentRec where
  profile : String
  model : String
  instructions : String
  conversation_history : List String
  deriving DecidableEq, Repr

/-- The instruction-rewriting completion call of `update_agent`, as an
oracle from the current agent and the named weak areas to the improved
instructions (or a raised error). -/
def Rewriter : Type := AgentRec → List String → Except String String

/-- `weak_areas = [k for k, v in rewards.items() if v < 0.7]`. -/
def weak_areas (rewards : RewardVector) : List String :=
  (rewards.items.filter (fun p => decide (p.2 < 7/10))).map (fun p => p.1)

/-- `update_agent(agent, rewards)`: with no weak areas the agent is
returned unchanged; otherwise the backend rewrites the instructions and a
fresh agent object is constructed from the old profile and model, with
the new instructions and the preserved conversation history. -/
def update_agent (rewrite : Rewriter) (agent : AgentRec)
    (rewards : RewardVector) : Except String AgentRec :=
  let weak := weak_areas rewards
  if weak = [] then .ok agent
  else
    match rewrite agent weak with
    | .error e => .error e
    | .ok newInstructions =>
        .ok { profile := agent.profile
              model := agent.model
              instructions := newInstructions
              conversation_history := agent.conversation_history }

/-- The RLAIF tail of `trigger_demo_sequence` (`main.py`): compute the
daily rewards from the traces; if the aggregate is below `0.8`, try to
upgrade the agent and swap it into `active_agents`, leaving the
deployment untouched when the upgrade raises; otherwise do nothing.
Returns the new deployment map and the `agent_upgraded` flag. -/
def demo_update (rewrite : Rewriter)
    (deployment : List (String × AgentRec)) (user_id : String)
    (agent : AgentRec) (traces : List ActionEntry) :
    List (String × AgentRec) × Bool :=
  let rewards := calculate_daily_rewards traces
  if rewards.aggregate < 8/10 then
    match update_agent rewrite agent rewards with
    | .ok newAgent => (dictInsert deployment user_id newAgent, true)
    | .error _ => (deployment, false)
  else (deployment, false)

/-- A deployed agent as the orchestrator actually constructs it:
`WellnessAgentSDK.__init__` (and likewise the V2 and WhatsApp classes)
sets `user_profile`, `model`, `name`, `tools` and the inner SDK `agent`
object — it passes the generated instructions to the inner `Agent`
constructor but never stores `self.instructions`, and it keeps no
`conversation_history` attribute at all. -/
structure SdkAgentRec where
  user_profile : String
  model : String
  deriving DecidableEq, Repr

/-- `update_agent` as it behaves on a deployed SDK agent: with no weak
areas the agent is returned unchanged; otherwise building the
improvement prompt evaluates `{agent.instructions}` on an object without
that attribute and raises `AttributeError` before the completion call,
so the rewrite never happens. -/
def sdk_update_agent (agent : SdkAgentRec) (rewards : RewardVector) :
    Except String SdkAgentRec :=
  if weak_areas rewards = [] then .ok agent
  else .error
    "AttributeError: 'WellnessAgentSDK' object has no attribute 'instructions'"

/-- The RLAIF tail of `trigger_demo_sequence` over the agents the
orchestrator actually deploys: identical control flow to `demo_update`,
with `update_agent`'s behavior on an `SdkAgentRec`. -/
def sdk_demo_update (deployment : List (String × SdkAgentRec))
    (user_id : String) (agent : SdkAgentRec)
    (traces : List ActionEntry) : List (String × SdkAgentRec) × Bool :=
  let rewards := calculate_daily_rewards traces
  if rewards.aggregate < 8/10 then
    match sdk_update_agent agent rewards with
    | .ok newAgent => (dictInsert deployment user_id newAgent, true)
    | .error _ => (deployment, false)
  else (deployment, false)

/-! ## `main.py`: selection of the best agent -/

/-- `max(scores, key=scores.get)` over the insertion-ordered score dict:
Python's `max` keeps the current best and replaces it only on a strictly
greater value, so the first key attaining the maximum wins; on an empty
dict it raises (modelled as the spec's ValidationError). -/
def select_best_agent (scores : List (String × ℚ)) : Except String String :=
  match scores with
  | [] => .error "ValidationError: empty score map"
  | p :: rest =>
      .ok ((rest.foldl (fun best q => if q.2 > best.2 then q else best) p).1)

/-! ## Specification-side definitions (from the spec's words) -/

/-- The two variants (standard and fast/cheap model tier) emitted for one
matched specialty. -/
def variant_pair (s : String) : List Variant :=
  [⟨s, "gpt-4.1"⟩, ⟨s, "gpt-4.1-mini"⟩]

/-- Spec-side scoring formula (§4.2 of the spec):
`score = 0.5·tool_term + 0.5·outcome_term`, where the tool term is the
fraction of required tools among the distinct invoked tool names and the
outcome term is the fraction of keywords appearing case-insensitively in
the response text; with no requirements at all, base credit `0.8` for a
non-empty reply and `0.5` otherwise. -/
def spec_score (response : AgentResponse) (required_tools expected_outcomes : List String) : ℚ :=
  if required_tools = [] ∧ expected_outcomes = [] then
    if response.message ≠ "" then 4/5 else 1/2
  else
    (1/2) * (if required_tools ≠ [] then
      ((response.tool_calls.dedup.filter
          (fun t => decide (t ∈ required_tools))).length : ℚ) /
        (required_tools.dedup.length : ℚ)
      else 0) +
    (1/2) * (if expected_outcomes ≠ [] then
      ((expected_outcomes.dedup.countP
          (fun o => containsCI response.message o)) : ℚ) /
        (expected_outcomes.dedup.length : ℚ)
      else 0)

/-- Spec-side selection property (§4.3): the chosen entry attains the
maximum score, and every entry strictly before it in generation order
scores strictly less — so the strictly highest score wins and ties go to
the earlier entry. -/
def is_first_argmax (scores : List (String × ℚ)) (i : ℕ)
    (hi : i < scores.length) : Prop :=
  (∀ q ∈ scores, q.2 ≤ (scores.get ⟨i, hi⟩).2) ∧
  (∀ q ∈ scores.take i, q.2 < (scores.get ⟨i, hi⟩).2)

/-! ## Lemmas about variant generation -/

/-- `firstDedup` with an arbitrary starting accumulator. -/
def dedupAppend (cs : List String) (l : List String) : List String :=
  l.foldl (fun acc x => if x ∈ acc then acc else acc ++ [x]) cs

lemma firstDedup_eq_dedupAppend (l : List String) :
    firstDedup l = dedupAppend [] l := rfl

lemma suite_fold_spec (pw wa : Bool) (goals : List String) :
    ∀ cs : List String,
      goals.foldl (suiteStep pw wa) (cs.flatMap variant_pair, cs) =
        ((dedupAppend cs (goals.filterMap (goal_agent_map pw wa))).flatMap
            variant_pair,
          dedupAppend cs (goals.filterMap (goal_agent_map pw wa))) := by
  induction goals with
  | nil => intro cs; simp [dedupAppend]
  | cons g gs ih =>
      intro cs
      simp only [List.foldl_cons, List.filterMap_cons]
      cases h : goal_agent_map pw wa g with
      | none => simpa [suiteStep, h] using ih cs
      | some t =>
          by_cases ht : t ∈ cs
          · have : suiteStep pw wa (cs.flatMap variant_pair, cs) g =
                (cs.flatMap variant_pair, cs) := by
              simp [suiteStep, h, ht]
            rw [this, ih cs]
            simp [dedupAppend, ht]
          · have hstep : suiteStep pw wa (cs.flatMap variant_pair, cs) g =
                ((cs ++ [t]).flatMap variant_pair, cs ++ [t]) := by
              simp [suiteStep, h, ht, List.flatMap_append, variant_pair]
            rw [hstep, ih (cs ++ [t])]
            simp [dedupAppend, ht]

lemma bind_variant_pair_ne_nil {M : List String} (h : M ≠ []) :
    M.flatMap variant_pair ≠ [] := by
  cases M with
  | nil => exact absurd rfl h
  | cons x xs => simp [variant_pair]

/-- C4 helper: `generate_agent_suite` in closed form. -/
lemma generate_agent_suite_eq (goals : List String) (pw wa : Bool) :
    generate_agent_suite goals pw wa =
      (if firstDedup (goals.filterMap (goal_agent_map pw wa)) = [] then
        [⟨"general_wellness", "gpt-4.1"⟩]
      else
        (firstDedup (goals.filterMap (goal_agent_map pw wa))).flatMap
          variant_pair) := by
  have h := suite_fold_spec pw wa goals []
  simp only [List.flatMap_nil] at h
  unfold generate_agent_suite
  rw [h, firstDedup_eq_dedupAppend]
  by_cases hM : dedupAppend [] (goals.filterMap (goal_agent_map pw wa)) = []
  · simp [hM]
  · simp [hM, bind_variant_pair_ne_nil hM]

/-! ## Claim theorems -/

/-- C1: the claim mandates at-most-once execution per approval id
(`approve(unknown)` → NotFound, second `approve(id)` → AlreadyApproved,
no re-execution), but the source's `approve_action` checks only the id's
existence, never its status: the theorem exhibits a run in which a
single queued SMS is approved twice, both calls return `"approved"`, and
the underlying send executes twice.  Only the NotFound half of the claim
holds. -/
theorem c1_double_approve_reexecutes :
    (approve_action (⟨[], []⟩ : ToolsState) "missing").2 =
      .error "Approval ID not found" ∧
    ((approve_action
        (send_sms (⟨[], []⟩ : ToolsState) "hi" "+15550000000" true
          "approval-1").1 "approval-1").2 = .approved "approval-1" ∧
      (approve_action
        (approve_action
          (send_sms (⟨[], []⟩ : ToolsState) "hi" "+15550000000" true
            "approval-1").1 "approval-1").1 "approval-1").2 =
        .approved "approval-1" ∧
      (approve_action
        (approve_action
          (send_sms (⟨[], []⟩ : ToolsState) "hi" "+15550000000" true
            "approval-1").1 "approval-1").1 "approval-1").1.executed_sends =
        [("hi", "+15550000000"), ("hi", "+15550000000")]) := by
  decide

/-- C4: variant generation in closed form: each specialty matched the
first time contributes exactly the two model tiers of `variant_pair`
(deduplication by specialty via first occurrence), unrecognized goals are
dropped by `filterMap`, an empty match list yields exactly one generic
variant, and the output is never empty. -/
theorem c4_variant_generation (goals : List String) (pw wa : Bool) :
    (generate_agent_suite goals pw wa =
      (if firstDedup (goals.filterMap (goal_agent_map pw wa)) = [] then
        [⟨"general_wellness", "gpt-4.1"⟩]
      else
        (firstDedup (goals.filterMap (goal_agent_map pw wa))).flatMap
          variant_pair)) ∧
    generate_agent_suite goals pw wa ≠ [] := by
  refine ⟨generate_agent_suite_eq goals pw wa, ?_⟩
  rw [generate_agent_suite_eq goals pw wa]
  by_cases hM : firstDedup (goals.filterMap (goal_agent_map pw wa)) = []
  · simp [hM]
  · simp only [hM, if_false]
    exact bind_variant_pair_ne_nil hM

/-! ## Lemmas about scoring -/

lemma data_ne_nil_of_ne_empty {s : String} (h : s ≠ "") : s.data ≠ [] := by
  intro hd
  apply h
  cases s with
  | mk l =>
      simp only [String.data] at hd
      subst hd
      rfl

/-- A non-empty needle is not contained in the empty string. -/
lemma containsCI_empty_hay {o : String} (h : o ≠ "") :
    containsCI "" o = false := by
  unfold containsCI
  have hd : o.data ≠ [] := data_ne_nil_of_ne_empty h
  cases hc : o.data with
  | nil => exact absurd hc hd
  | cons c cs => simp [lowerChars, hc, isInfixOfB, isPrefixOfB]

lemma countP_containsCI_empty {O : List String}
    (hOne : ∀ o ∈ O, o ≠ "") :
    O.countP (fun o => containsCI "" o) = 0 := by
  rw [List.countP_eq_zero]
  intro o ho
  simp [containsCI_empty_hay (hOne o ho)]

/-- C2: for every response and scenario whose required-tool and keyword
collections are genuine sets of genuine (non-empty) keywords, the score
computed by `_calculate_score` coincides with the spec's closed formula
`0.5·tool_term + 0.5·outcome_term` (with the `0.8 / 0.5` base-credit
special case when both sets are empty). -/
theorem c2_score_formula (response : AgentResponse) (R O : List String)
    (hR : R.Nodup) (hO : O.Nodup) (hOne : ∀ o ∈ O, o ≠ "") :
    calculate_score response O R = spec_score response R O := by
  unfold calculate_score spec_score
  rw [List.Nodup.dedup hR, List.Nodup.dedup hO]
  by_cases hboth : R = [] ∧ O = []
  · simp [hboth]
  · rw [if_neg hboth, if_neg hboth]
    have htool :
        (if R ≠ [] ∧ response.tool_calls ≠ [] then
          ((response.tool_calls.dedup.filter
              (fun t => decide (t ∈ R))).length : ℚ) /
            (R.length : ℚ) * (1/2)
        else 0) =
        (1/2) * (if R ≠ [] then
          ((response.tool_calls.dedup.filter
              (fun t => decide (t ∈ R))).length : ℚ) /
            (R.length : ℚ)
          else 0) := by
      by_cases hR0 : R = []
      · simp [hR0]
      · by_cases htc : response.tool_calls = []
        · simp [hR0, htc, List.dedup_nil]
        · rw [if_pos ⟨hR0, htc⟩, if_pos hR0]
          ring
    have houtcome :
        (if O ≠ [] ∧ response.message ≠ "" then
          ((O.countP (fun o => containsCI response.message o)) : ℚ) /
            (O.length : ℚ) * (1/2)
        else 0) =
        (1/2) * (if O ≠ [] then
          ((O.countP (fun o => containsCI response.message o)) : ℚ) /
            (O.length : ℚ)
          else 0) := by
      by_cases hO0 : O = []
      · simp [hO0]
      · by_cases hm : response.message = ""
        · rw [if_neg (by tauto), if_pos hO0, hm,
            countP_containsCI_empty hOne]
          simp
        · rw [if_pos ⟨hO0, hm⟩, if_pos hO0]
          ring
    rw [htool, houtcome]

/-- C2 witness: a concrete response against the "Sleep Issues"-style
scenario; the hypotheses hold and the two scoring functions agree. -/
theorem c2_score_formula_witness :
    (["get_health_metrics"] : List String).Nodup ∧
    (["sleep", "insight"] : List String).Nodup ∧
    (∀ o ∈ (["sleep", "insight"] : List String), o ≠ "") ∧
    calculate_score ⟨"Here is a sleep insight.", ["get_health_metrics"]⟩
        ["sleep", "insight"] ["get_health_metrics"] =
      spec_score ⟨"Here is a sleep insight.", ["get_health_metrics"]⟩
        ["get_health_metrics"] ["sleep", "insight"] :=
  ⟨by decide, by decide, by decide,
    c2_score_formula ⟨"Here is a sleep insight.", ["get_health_metrics"]⟩
      ["get_health_metrics"] ["sleep", "insight"]
      (by decide) (by decide) (by decide)⟩

/-! ## Lemmas about score ranges and evaluation -/

/-- `calculate_score` with its `let`-bindings inlined. -/
lemma calculate_score_eq (response : AgentResponse)
    (O R : List String) :
    calculate_score response O R =
      (if R = [] ∧ O = [] then
        if response.message ≠ "" then 4/5 else 1/2
      else
        (if R ≠ [] ∧ response.tool_calls ≠ [] then
          ((response.tool_calls.dedup.filter
              (fun t => decide (t ∈ R))).length : ℚ) /
            (R.length : ℚ) * (1/2)
        else 0) +
        (if O ≠ [] ∧ response.message ≠ "" then
          ((O.countP (fun o => containsCI response.message o)) : ℚ) /
            (O.length : ℚ) * (1/2)
        else 0)) := rfl

lemma tool_term_unit (response : AgentResponse) (R : List String)
    (h : R ≠ []) :
    0 ≤ ((response.tool_calls.dedup.filter
        (fun t => decide (t ∈ R))).length : ℚ) / (R.length : ℚ) * (1/2) ∧
    ((response.tool_calls.dedup.filter
        (fun t => decide (t ∈ R))).length : ℚ) / (R.length : ℚ) * (1/2) ≤
      1/2 := by
  have hnd : (response.tool_calls.dedup.filter
      (fun t => decide (t ∈ R))).Nodup :=
    (List.nodup_dedup response.tool_calls).filter _
  have hsub : (response.tool_calls.dedup.filter
      (fun t => decide (t ∈ R))) ⊆ R := by
    intro x hx
    have := List.of_mem_filter hx
    simpa using this
  have hlen := (List.subperm_of_subset hnd hsub).length_le
  have hpos : (0 : ℚ) < (R.length : ℚ) := by
    have : R.length ≠ 0 := by
      intro h0
      exact h (List.length_eq_zero.mp h0)
    exact_mod_cast Nat.pos_of_ne_zero this
  have hdiv : ((response.tool_calls.dedup.filter
      (fun t => decide (t ∈ R))).length : ℚ) / (R.length : ℚ) ≤ 1 := by
    rw [div_le_one hpos]
    exact_mod_cast hlen
  constructor
  · positivity
  · nlinarith

lemma outcome_term_unit (response : AgentResponse) (O : List String)
    (h : O ≠ []) :
    0 ≤ ((O.countP (fun o => containsCI response.message o)) : ℚ) /
        (O.length : ℚ) * (1/2) ∧
    ((O.countP (fun o => containsCI response.message o)) : ℚ) /
        (O.length : ℚ) * (1/2) ≤ 1/2 := by
  have hle := List.countP_le_length
    (p := fun o => containsCI response.message o) (l := O)
  have hpos : (0 : ℚ) < (O.length : ℚ) := by
    have : O.length ≠ 0 := by
      intro h0
      exact h (List.length_eq_zero.mp h0)
    exact_mod_cast Nat.pos_of_ne_zero this
  have hdiv : ((O.countP (fun o => containsCI response.message o)) : ℚ) /
      (O.length : ℚ) ≤ 1 := by
    rw [div_le_one hpos]
    exact_mod_cast hle
  constructor
  · positivity
  · nlinarith

lemma calculate_score_unit (response : AgentResponse) (O R : List String) :
    0 ≤ calculate_score response O R ∧ calculate_score response O R ≤ 1 := by
  rw [calculate_score_eq]
  by_cases hb : R = [] ∧ O = []
  · rw [if_pos hb]
    split_ifs <;> norm_num
  · rw [if_neg hb]
    have hT : 0 ≤ (if R ≠ [] ∧ response.tool_calls ≠ [] then
        ((response.tool_calls.dedup.filter
            (fun t => decide (t ∈ R))).length : ℚ) /
          (R.length : ℚ) * (1/2)
      else 0) ∧
        (if R ≠ [] ∧ response.tool_calls ≠ [] then
          ((response.tool_calls.dedup.filter
              (fun t => decide (t ∈ R))).length : ℚ) /
            (R.length : ℚ) * (1/2)
        else 0) ≤ 1/2 := by
      split_ifs with h
      · exact tool_term_unit response R h.1
      · norm_num
    have hU : 0 ≤ (if O ≠ [] ∧ response.message ≠ "" then
        ((O.countP (fun o => containsCI response.message o)) : ℚ) /
          (O.length : ℚ) * (1/2)
      else 0) ∧
        (if O ≠ [] ∧ response.message ≠ "" then
          ((O.countP (fun o => containsCI response.message o)) : ℚ) /
            (O.length : ℚ) * (1/2)
        else 0) ≤ 1/2 := by
      split_ifs with h
      · exact outcome_term_unit response O h.1
      · norm_num
    constructor
    · linarith [hT.1, hU.1]
    · linarith [hT.2, hU.2]

lemma run_scenario_score_unit (respond : Oracle) (a : Variant)
    (s : Scenario) :
    0 ≤ (run_scenario respond a s).1 ∧ (run_scenario respond a s).1 ≤ 1 := by
  unfold run_scenario
  cases respond a s with
  | ok r => exact calculate_score_unit r s.expected_outcomes s.required_tools
  | error e => norm_num

lemma run_scenario_entry_score (respond : Oracle) (a : Variant)
    (s : Scenario) :
    (run_scenario respond a s).2.score = (run_scenario respond a s).1 := by
  unfold run_scenario
  cases respond a s <;> rfl

lemma evaluate_agent_fold (respond : Oracle) (a : Variant) :
    ∀ (scens : List Scenario) (t0 : ℚ) (acc : List TraceEntry),
      scens.foldl
        (fun acc s =>
          let p := run_scenario respond a s
          (acc.1 + p.1, acc.2 ++ [p.2])) (t0, acc) =
      (t0 + (scens.map (fun s => (run_scenario respond a s).1)).sum,
       acc ++ scens.map (fun s => (run_scenario respond a s).2)) := by
  intro scens
  induction scens with
  | nil => intro t0 acc; simp
  | cons s ss ih =>
      intro t0 acc
      simp only [List.foldl_cons, List.map_cons, List.sum_cons, ih]
      rw [add_assoc, List.append_assoc]
      simp

/-- The per-agent trace list is exactly the pointwise record of every
scenario, in order. -/
lemma evaluate_agent_traces (respond : Oracle) (a : Variant)
    (scens : List Scenario) :
    (evaluate_agent respond a scens).2 =
      scens.map (fun s => (run_scenario respond a s).2) := by
  unfold evaluate_agent
  rw [evaluate_agent_fold]
  simp

lemma evaluate_agent_score (respond : Oracle) (a : Variant)
    (scens : List Scenario) :
    (evaluate_agent respond a scens).1 =
      (if scens = [] then 0 else
        (scens.map (fun s => (run_scenario respond a s).1)).sum /
          (scens.length : ℚ)) := by
  unfold evaluate_agent
  rw [evaluate_agent_fold]
  simp

lemma sum_unit_le {l : List ℚ} (h : ∀ x ∈ l, 0 ≤ x ∧ x ≤ 1) :
    0 ≤ l.sum ∧ l.sum ≤ (l.length : ℚ) := by
  induction l with
  | nil => simp
  | cons x xs ih =>
      have hx := h x (List.mem_cons_self x xs)
      have hxs := ih (fun y hy => h y (List.mem_cons_of_mem x hy))
      simp only [List.sum_cons, List.length_cons]
      constructor
      · linarith [hx.1, hxs.1]
      · push_cast
        linarith [hx.2, hxs.2]

lemma evaluate_agent_score_unit (respond : Oracle) (a : Variant)
    (scens : List Scenario) :
    0 ≤ (evaluate_agent respond a scens).1 ∧
      (evaluate_agent respond a scens).1 ≤ 1 := by
  rw [evaluate_agent_score]
  split_ifs with h
  · norm_num
  · have hb := sum_unit_le (l := scens.map (fun s => (run_scenario respond a s).1))
      (by
        intro x hx
        obtain ⟨s, _, rfl⟩ := List.mem_map.mp hx
        exact run_scenario_score_unit respond a s)
    have hpos : (0 : ℚ) < (scens.length : ℚ) := by
      have : scens.length ≠ 0 := by
        intro h0
        exact h (List.length_eq_zero.mp h0)
      exact_mod_cast Nat.pos_of_ne_zero this
    constructor
    · exact div_nonneg hb.1 (le_of_lt hpos)
    · rw [div_le_one hpos]
      simpa using hb.2

lemma dictInsert_forall {α : Type} {P : α → Prop} {m : List (String × α)}
    {k : String} {v : α} (hm : ∀ p ∈ m, P p.2) (hv : P v) :
    ∀ p ∈ dictInsert m k v, P p.2 := by
  induction m with
  | nil =>
      intro p hp
      simp only [dictInsert, List.mem_singleton] at hp
      rw [hp]
      exact hv
  | cons q rest ih =>
      intro p hp
      by_cases hq : q.1 = k
      · simp only [dictInsert, hq, if_true, List.mem_cons] at hp
        rcases hp with hp | hp
        · rw [hp]
          exact hv
        · exact hm p (List.mem_cons_of_mem q hp)
      · simp only [dictInsert, hq, if_false, List.mem_cons] at hp
        rcases hp with hp | hp
        · rw [hp]
          exact hm q (List.mem_cons_self q rest)
        · exact ih (fun r hr => hm r (List.mem_cons_of_mem q hr)) p hp

lemma evaluate_agents_inv (respond : Oracle) (scens : List Scenario)
    (u : String) (P : ℚ → Prop) (Q : List TraceEntry → Prop)
    (hP : ∀ a : Variant, P (evaluate_agent respond a scens).1)
    (hQ : ∀ a : Variant, Q (evaluate_agent respond a scens).2) :
    ∀ (agents : List Variant)
      (acc : List (String × ℚ) × List (String × List TraceEntry)),
      (∀ p ∈ acc.1, P p.2) → (∀ p ∈ acc.2, Q p.2) →
      (∀ p ∈ (agents.foldl (evalStep respond scens u) acc).1, P p.2) ∧
      (∀ p ∈ (agents.foldl (evalStep respond scens u) acc).2, Q p.2) := by
  intro agents
  induction agents with
  | nil => intro acc h1 h2; exact ⟨h1, h2⟩
  | cons a as ih =>
      intro acc h1 h2
      apply ih
      · exact dictInsert_forall h1 (hP a)
      · exact dictInsert_forall h2 (hQ a)

lemma evaluate_task_completion_unit (actions : List ActionEntry) :
    0 ≤ evaluate_task_completion actions ∧
      evaluate_task_completion actions ≤ 1 := by
  unfold evaluate_task_completion
  split_ifs with h
  · norm_num
  · have hle := List.countP_le_length
      (p := fun a => a.status == "completed") (l := actions)
    have hpos : (0 : ℚ) < (actions.length : ℚ) := by
      have : actions.length ≠ 0 := by
        intro h0
        exact h (List.length_eq_zero.mp h0)
      exact_mod_cast Nat.pos_of_ne_zero this
    constructor
    · positivity
    · rw [div_le_one hpos]
      exact_mod_cast hle

/-- C3: every per-variant aggregate score, every per-scenario trace
score, and every reward-vector dimension lies in `[0, 1]`. -/
theorem c3_unit_interval (respond : Oracle) (agents : List Variant)
    (scens : List Scenario) (u : String) (actions : List ActionEntry) :
    (∀ p ∈ (evaluate_agents respond agents scens u).1,
      0 ≤ p.2 ∧ p.2 ≤ 1) ∧
    (∀ p ∈ (evaluate_agents respond agents scens u).2,
      ∀ t ∈ p.2, 0 ≤ t.score ∧ t.score ≤ 1) ∧
    (∀ d ∈ (calculate_daily_rewards actions).items,
      0 ≤ d.2 ∧ d.2 ≤ 1) := by
  have hmain := evaluate_agents_inv respond scens u
    (fun q => 0 ≤ q ∧ q ≤ 1)
    (fun ts => ∀ t ∈ ts, 0 ≤ t.score ∧ t.score ≤ 1)
    (fun a => evaluate_agent_score_unit respond a scens)
    (fun a => by
      rw [evaluate_agent_traces]
      intro t ht
      obtain ⟨s, _, rfl⟩ := List.mem_map.mp ht
      rw [run_scenario_entry_score]
      exact run_scenario_score_unit respond a s)
    agents ([], []) (by simp) (by simp)
  refine ⟨hmain.1, hmain.2, ?_⟩
  intro d hd
  have htc := evaluate_task_completion_unit actions
  simp only [calculate_daily_rewards, RewardVector.items, List.mem_cons,
    List.mem_singleton] at hd
  rcases hd with h | h | h | h | h | h
  · rw [h]; exact htc
  · rw [h]; constructor <;> norm_num [evaluate_engagement]
  · rw [h]; constructor <;> norm_num [evaluate_timing]
  · rw [h]; constructor <;> norm_num [evaluate_efficiency]
  · rw [h]
    unfold evaluate_safety
    split_ifs <;> norm_num
  · simp at h

/-- A completion backend that always raises, used to instantiate the
evaluation theorems at a concrete input. -/
def oracle_fail : Oracle := fun _ _ => .error "boom"

/-- C3 witness: a concrete one-agent evaluation produces a score entry,
and the theorem places it in `[0, 1]`. -/
theorem c3_unit_interval_witness :
    (("Wellness Agent for Maya (gpt-4.1)", (0 : ℚ)) ∈
      (evaluate_agents oracle_fail [⟨"sleep_specialist", "gpt-4.1"⟩]
        [] "Maya").1) ∧
    (0 ≤ (("Wellness Agent for Maya (gpt-4.1)", (0 : ℚ)) : String × ℚ).2 ∧
      (("Wellness Agent for Maya (gpt-4.1)", (0 : ℚ)) : String × ℚ).2 ≤ 1) :=
  ⟨by decide,
    (c3_unit_interval oracle_fail [⟨"sleep_specialist", "gpt-4.1"⟩]
      [] "Maya" []).1
      ("Wellness Agent for Maya (gpt-4.1)", (0 : ℚ)) (by decide)⟩

/-! ## Lemmas about selection -/

lemma select_fold_spec :
    ∀ (rest : List (String × ℚ)) (p : String × ℚ),
      ∃ i, ∃ hi : i < (p :: rest).length,
        rest.foldl (fun best q => if q.2 > best.2 then q else best) p =
          (p :: rest).get ⟨i, hi⟩ ∧
        (∀ q ∈ p :: rest, q.2 ≤ ((p :: rest).get ⟨i, hi⟩).2) ∧
        (∀ q ∈ (p :: rest).take i, q.2 < ((p :: rest).get ⟨i, hi⟩).2) := by
  intro rest
  induction rest with
  | nil =>
      intro p
      refine ⟨0, by simp, rfl, ?_, by simp⟩
      intro q hq
      simp at hq
      simp [hq]
  | cons x t ih =>
      intro p
      rw [List.foldl_cons]
      by_cases h1 : x.2 > p.2
      · rw [if_pos h1]
        obtain ⟨i, hi, heq, hmax, htake⟩ := ih x
        refine ⟨i + 1, by simpa using hi, by simpa using heq, ?_, ?_⟩
        · intro q hq
          rcases List.mem_cons.mp hq with rfl | hq2
          · have hx := hmax x (List.mem_cons_self x t)
            have : q.2 < x.2 := h1
            calc q.2 ≤ x.2 := le_of_lt this
              _ ≤ ((x :: t).get ⟨i, hi⟩).2 := hx
          · exact hmax q hq2
        · intro q hq
          rw [List.take_succ_cons] at hq
          rcases List.mem_cons.mp hq with rfl | hq2
          · have hx := hmax x (List.mem_cons_self x t)
            calc q.2 < x.2 := h1
              _ ≤ ((x :: t).get ⟨i, hi⟩).2 := hx
          · exact htake q hq2
      · rw [if_neg h1]
        have hxle : x.2 ≤ p.2 := le_of_not_lt h1
        obtain ⟨i, hi, heq, hmax, htake⟩ := ih p
        cases i with
        | zero =>
            refine ⟨0, by simp, by simpa using heq, ?_, by simp⟩
            intro q hq
            rcases List.mem_cons.mp hq with hqp | hq2
            · rw [hqp]
              exact hmax p (List.mem_cons_self p t)
            · rcases List.mem_cons.mp hq2 with hqx | hq3
              · rw [hqx]
                calc x.2 ≤ p.2 := hxle
                  _ ≤ ((p :: t).get ⟨0, by simp⟩).2 :=
                    hmax p (List.mem_cons_self p t)
              · exact hmax q (List.mem_cons_of_mem p hq3)
        | succ j =>
            have hj : j < t.length := by simpa using hi
            have hj2 : j + 2 < (p :: x :: t).length := by
              simp
              omega
            have hget : (p :: x :: t).get ⟨j + 2, hj2⟩ =
                (p :: t).get ⟨j + 1, hi⟩ := rfl
            refine ⟨j + 2, hj2, ?_, ?_, ?_⟩
            · rw [hget]
              exact heq
            · intro q hq
              rw [hget]
              rcases List.mem_cons.mp hq with hqp | hq2
              · rw [hqp]
                exact hmax p (List.mem_cons_self p t)
              · rcases List.mem_cons.mp hq2 with hqx | hq3
                · rw [hqx]
                  calc x.2 ≤ p.2 := hxle
                    _ ≤ ((p :: t).get ⟨j + 1, hi⟩).2 :=
                      hmax p (List.mem_cons_self p t)
                · exact hmax q (List.mem_cons_of_mem p hq3)
            · intro q hq
              rw [hget]
              rw [List.take_succ_cons, List.take_succ_cons] at hq
              have hptake : p.2 < ((p :: t).get ⟨j + 1, hi⟩).2 := by
                apply htake
                rw [List.take_succ_cons]
                exact List.mem_cons_self p _
              rcases List.mem_cons.mp hq with rfl | hq2
              · exact hptake
              · rcases List.mem_cons.mp hq2 with rfl | hq3
                · exact lt_of_le_of_lt hxle hptake
                · apply htake
                  rw [List.take_succ_cons]
                  exact List.mem_cons_of_mem p hq3

/-- C5: selection over the insertion-ordered score map: on an empty map
it fails (the spec's ValidationError); on a non-empty map it returns the
key of an entry attaining the maximum score such that every earlier
entry scores strictly less — the strictly highest aggregate wins and
ties are broken in favor of the variant generated first, so selection is
a deterministic function of the score map. -/
theorem c5_selection (scores : List (String × ℚ)) :
    (select_best_agent [] = .error "ValidationError: empty score map") ∧
    (scores ≠ [] →
      ∃ i, ∃ hi : i < scores.length,
        select_best_agent scores = .ok ((scores.get ⟨i, hi⟩).1) ∧
        is_first_argmax scores i hi) := by
  constructor
  · rfl
  · intro h
    cases scores with
    | nil => exact absurd rfl h
    | cons p rest =>
        obtain ⟨i, hi, heq, hmax, htake⟩ := select_fold_spec rest p
        refine ⟨i, hi, ?_, hmax, htake⟩
        simp only [select_best_agent]
        rw [heq]

/-- C5 witness: a two-entry tied score map; selection picks the first
entry, which satisfies the first-argmax property. -/
theorem c5_selection_witness :
    (([("a", (0 : ℚ)), ("b", (0 : ℚ))] : List (String × ℚ)) ≠ []) ∧
    (∃ i, ∃ hi : i <
        ([("a", (0 : ℚ)), ("b", (0 : ℚ))] : List (String × ℚ)).length,
      select_best_agent [("a", (0 : ℚ)), ("b", (0 : ℚ))] =
        .ok ((([("a", (0 : ℚ)), ("b", (0 : ℚ))] :
          List (String × ℚ)).get ⟨i, hi⟩).1) ∧
      is_first_argmax [("a", (0 : ℚ)), ("b", (0 : ℚ))] i hi) :=
  ⟨by decide, (c5_selection [("a", (0 : ℚ)), ("b", (0 : ℚ))]).2 (by decide)⟩

/-! ## Dictionary lookup lemmas -/

lemma dictFind?_cons_pos {α : Type} {q : String × α}
    {rest : List (String × α)} {k2 : String} (h : q.1 = k2) :
    dictFind? (q :: rest) k2 = some q.2 := by
  unfold dictFind?
  rw [List.find?_cons_of_pos rest (by simp [h])]
  rfl

lemma dictFind?_cons_neg {α : Type} {q : String × α}
    {rest : List (String × α)} {k2 : String} (h : q.1 ≠ k2) :
    dictFind? (q :: rest) k2 = dictFind? rest k2 := by
  unfold dictFind?
  rw [List.find?_cons_of_neg rest (by simp [h])]

lemma dictFind?_dictInsert {α : Type} (m : List (String × α))
    (k k2 : String) (v : α) :
    dictFind? (dictInsert m k v) k2 =
      if k2 = k then some v else dictFind? m k2 := by
  induction m with
  | nil =>
      by_cases h : k2 = k
      · rw [show dictInsert [] k v = [(k, v)] from rfl,
          dictFind?_cons_pos (by simp [h]), if_pos h]
      · rw [show dictInsert [] k v = [(k, v)] from rfl,
          dictFind?_cons_neg (by simp; exact fun hh => h hh.symm),
          if_neg h]
  | cons q rest ih =>
      by_cases hp : q.1 = k
      · have hins : dictInsert (q :: rest) k v = (k, v) :: rest := by
          simp only [dictInsert, hp, if_true]
        by_cases h : k2 = k
        · rw [hins, dictFind?_cons_pos (by simp [h]), if_pos h]
        · rw [hins, dictFind?_cons_neg (by simp; exact fun hh => h hh.symm),
            if_neg h,
            dictFind?_cons_neg (by rw [hp]; exact fun hh => h hh.symm)]
      · have hins : dictInsert (q :: rest) k v =
            q :: dictInsert rest k v := by
          simp only [dictInsert, hp, if_false]
        rw [hins]
        by_cases hqk2 : q.1 = k2
        · have h2 : ¬k2 = k := fun hh => hp (hqk2.trans hh)
          rw [dictFind?_cons_pos hqk2, if_neg h2,
            dictFind?_cons_pos hqk2]
        · rw [dictFind?_cons_neg hqk2, ih]
          by_cases h : k2 = k
          · rw [if_pos h, if_pos h]
          · rw [if_neg h, if_neg h, dictFind?_cons_neg hqk2]

lemma evaluate_agents_key_present (respond : Oracle)
    (scens : List Scenario) (u : String) :
    ∀ (agents : List Variant)
      (acc : List (String × ℚ) × List (String × List TraceEntry))
      (a : Variant),
      (a ∈ agents ∨ (dictFind? acc.2 (agent_key a u)).isSome) →
      (dictFind? (agents.foldl (evalStep respond scens u) acc).2
        (agent_key a u)).isSome := by
  intro agents
  induction agents with
  | nil =>
      intro acc a h
      rcases h with h | h
      · simp at h
      · simpa using h
  | cons b bs ih =>
      intro acc a h
      rw [List.foldl_cons]
      apply ih
      rcases h with h | h
      · rcases List.mem_cons.mp h with hab | h2
        · right
          rw [hab]
          simp only [evalStep]
          rw [dictFind?_dictInsert]
          simp
        · left
          exact h2
      · right
        simp only [evalStep]
        rw [dictFind?_dictInsert]
        by_cases hk : agent_key a u = agent_key b u
        · simp [hk]
        · rw [if_neg hk]
          exact h

/-- C6: a backend failure on one (variant, scenario) pair never escapes
evaluation: the per-agent trace list still records every scenario in
order (`scens.map`), the failing pair is recorded with score exactly
`0.5` and the raw error string, and the evaluation run still produces a
trace entry for every variant's key. -/
theorem c6_per_pair_resilience (respond : Oracle) (agents : List Variant)
    (scens : List Scenario) (u : String) (a : Variant) (s : Scenario)
    (e : String) (ha : a ∈ agents) (hs : s ∈ scens)
    (he : respond a s = .error e) :
    (evaluate_agent respond a scens).2 =
      scens.map (fun t => (run_scenario respond a t).2) ∧
    (⟨s.name, 1/2, none, some e⟩ : TraceEntry) ∈
      (evaluate_agent respond a scens).2 ∧
    (evaluate_agent respond a scens).2.length = scens.length ∧
    (dictFind? (evaluate_agents respond agents scens u).2
      (agent_key a u)).isSome := by
  refine ⟨evaluate_agent_traces respond a scens, ?_, ?_, ?_⟩
  · rw [evaluate_agent_traces]
    apply List.mem_map.mpr
    refine ⟨s, hs, ?_⟩
    simp [run_scenario, he]
  · rw [evaluate_agent_traces]
    simp
  · exact evaluate_agents_key_present respond scens u agents ([], []) a
      (Or.inl ha)

/-- The variant and scenario used to instantiate the evaluation
theorems. -/
def witness_variant : Variant := ⟨"sleep_specialist", "gpt-4.1"⟩

/-- A scenario with no requirements, used in witnesses. -/
def witness_scenario : Scenario := ⟨"s", "p", [], []⟩

/-- C6 witness: one agent, one scenario, a backend that raises `"boom"`;
the failing pair is recorded with score `0.5` and the raw error. -/
theorem c6_per_pair_resilience_witness :
    (witness_variant ∈ [witness_variant]) ∧
    (witness_scenario ∈ [witness_scenario]) ∧
    (oracle_fail witness_variant witness_scenario = .error "boom") ∧
    ((evaluate_agent oracle_fail witness_variant [witness_scenario]).2 =
      [witness_scenario].map
        (fun t => (run_scenario oracle_fail witness_variant t).2) ∧
    (⟨witness_scenario.name, 1/2, none, some "boom"⟩ : TraceEntry) ∈
      (evaluate_agent oracle_fail witness_variant [witness_scenario]).2 ∧
    (evaluate_agent oracle_fail witness_variant [witness_scenario]).2.length =
      [witness_scenario].length ∧
    (dictFind? (evaluate_agents oracle_fail [witness_variant]
      [witness_scenario] "Maya").2
      (agent_key witness_variant "Maya")).isSome) :=
  ⟨by decide, by decide, rfl,
    c6_per_pair_resilience oracle_fail [witness_variant] [witness_scenario]
      "Maya" witness_variant witness_scenario "boom"
      (by decide) (by decide) rfl⟩

/-! ## Lemmas about regeneration -/

/-- A dimension is named a weak area exactly when its reward value is
below `0.7`. -/
lemma mem_weak_areas_iff (r : RewardVector) (d : String) :
    d ∈ weak_areas r ↔ ∃ v, (d, v) ∈ r.items ∧ v < 7/10 := by
  unfold weak_areas
  constructor
  · intro hd
    obtain ⟨p, hp, hpd⟩ := List.mem_map.mp hd
    obtain ⟨hpi, hplt⟩ := List.mem_filter.mp hp
    refine ⟨p.2, ?_, by simpa using hplt⟩
    rw [← hpd]
    simpa using hpi
  · rintro ⟨v, hv, hlt⟩
    exact List.mem_map.mpr ⟨(d, v),
      List.mem_filter.mpr ⟨hv, by simpa using hlt⟩, rfl⟩

lemma evaluate_safety_cases (traces : List ActionEntry) :
    evaluate_safety traces = 1 ∨ evaluate_safety traces = 95/100 := by
  unfold evaluate_safety
  split_ifs
  · exact Or.inl rfl
  · exact Or.inr rfl

/-- With the fixed estimator constants, a below-threshold aggregate
forces task completion below `0.7`, so the weak-area list is never
empty when regeneration is triggered. -/
lemma weak_areas_ne_nil_of_low_aggregate (traces : List ActionEntry)
    (h : (calculate_daily_rewards traces).aggregate < 8/10) :
    weak_areas (calculate_daily_rewards traces) ≠ [] := by
  have hagg : (evaluate_task_completion traces + 85/100 + 9/10 + 8/10 +
      evaluate_safety traces) / 5 < 8/10 := h
  have htc : evaluate_task_completion traces < 7/10 := by
    rcases evaluate_safety_cases traces with hsc | hsc <;>
      rw [hsc] at hagg <;> linarith
  intro hnil
  have : "task_completion" ∈ weak_areas (calculate_daily_rewards traces) := by
    rw [mem_weak_areas_iff]
    exact ⟨evaluate_task_completion traces,
      by simp [calculate_daily_rewards, RewardVector.items], htc⟩
  rw [hnil] at this
  simp at this

/-- C7: the claimed regeneration contract (rewrite the instructions
preserving conversation state, replace the deployed variant) can never
execute in the source: the agents the orchestrator deploys carry no
`instructions` / `conversation_history` attributes, so whenever the weak
areas are non-empty `update_agent` raises `AttributeError` while
building the improvement prompt, `trigger_demo_sequence` swallows the
exception, and the deployment is left unchanged with no upgrade
reported — for **every** deployment, agent and action log.  The second
conjunct evaluates the failing input: the empty action log has aggregate
`0.71 < 0.8` and non-empty weak areas, yet the update raises instead of
rewriting. -/
theorem c7_regeneration_never_happens :
    (∀ (deployment : List (String × SdkAgentRec)) (user_id : String)
      (agent : SdkAgentRec) (traces : List ActionEntry),
      sdk_demo_update deployment user_id agent traces =
        (deployment, false)) ∧
    ((calculate_daily_rewards []).aggregate < 8/10 ∧
      weak_areas (calculate_daily_rewards []) ≠ [] ∧
      sdk_update_agent ⟨"maya-profile", "gpt-4.1"⟩
          (calculate_daily_rewards []) =
        .error
          "AttributeError: 'WellnessAgentSDK' object has no attribute 'instructions'") := by
  have hagg : (calculate_daily_rewards
      ([] : List ActionEntry)).aggregate < 8/10 := by
    show (evaluate_task_completion [] + 85/100 + 9/10 + 8/10 +
      evaluate_safety []) / 5 < 8/10
    norm_num [evaluate_task_completion, evaluate_safety]
  have hne := weak_areas_ne_nil_of_low_aggregate [] hagg
  constructor
  · intro deployment user_id agent traces
    by_cases hlow : (calculate_daily_rewards traces).aggregate < 8/10
    · have hne2 := weak_areas_ne_nil_of_low_aggregate traces hlow
      simp only [sdk_demo_update, sdk_update_agent]
      rw [if_pos hlow, if_neg hne2]
    · simp only [sdk_demo_update]
      rw [if_neg hlow]
  · refine ⟨hagg, hne, ?_⟩
    simp only [sdk_update_agent]
    rw [if_neg hne]

/-- The agent record used to instantiate the regeneration theorems. -/
def witness_agent : AgentRec :=
  ⟨"maya-profile", "gpt-4.1", "old instructions", ["hello"]⟩

/-- A rewriting backend that always raises. -/
def rewrite_fail : Rewriter := fun _ _ => .error "backend down"

/-- C8: when the rewrite call raises, the demo-sequence upgrade step
leaves the deployment exactly as it was and reports no upgrade — a
regeneration failure never corrupts or replaces the active variant. -/
theorem c8_failed_regeneration_keeps_deployment (rewrite : Rewriter)
    (deployment : List (String × AgentRec)) (user_id : String)
    (agent : AgentRec) (traces : List ActionEntry) (e : String)
    (hrw : rewrite agent (weak_areas (calculate_daily_rewards traces)) =
      .error e) :
    (demo_update rewrite deployment user_id agent traces).1 = deployment ∧
    (demo_update rewrite deployment user_id agent traces).2 = false := by
  by_cases hlow : (calculate_daily_rewards traces).aggregate < 8/10
  · have hne := weak_areas_ne_nil_of_low_aggregate traces hlow
    simp only [demo_update, update_agent]
    rw [if_pos hlow, if_neg hne, hrw]
    exact ⟨rfl, rfl⟩
  · simp only [demo_update]
    rw [if_neg hlow]
    exact ⟨rfl, rfl⟩

/-- C8 witness: with a failing rewriter, the previously deployed agent
stays deployed and no upgrade is reported. -/
theorem c8_failed_regeneration_witness :
    (rewrite_fail witness_agent
      (weak_areas (calculate_daily_rewards [])) = .error "backend down") ∧
    ((demo_update rewrite_fail [("maya", witness_agent)] "maya"
        witness_agent []).1 = [("maya", witness_agent)] ∧
      (demo_update rewrite_fail [("maya", witness_agent)] "maya"
        witness_agent []).2 = false) :=
  ⟨rfl,
    c8_failed_regeneration_keeps_deployment rewrite_fail
      [("maya", witness_agent)] "maya" witness_agent [] "backend down" rfl⟩

/-! ## Lemmas about key collisions (C10) -/

lemma dedupAppend_nodup :
    ∀ (l cs : List String), cs.Nodup → (dedupAppend cs l).Nodup := by
  intro l
  induction l with
  | nil => intro cs h; exact h
  | cons x t ih =>
      intro cs h
      simp only [dedupAppend, List.foldl_cons]
      by_cases hx : x ∈ cs
      · rw [if_pos hx]
        exact ih cs h
      · rw [if_neg hx]
        apply ih
        rw [List.nodup_append]
        refine ⟨h, List.nodup_singleton x, ?_⟩
        intro a ha hax
        simp only [List.mem_singleton] at hax
        rw [hax] at ha
        exact hx ha

lemma mem_dedupAppend :
    ∀ (l cs : List String) (x : String),
      x ∈ dedupAppend cs l → x ∈ cs ∨ x ∈ l := by
  intro l
  induction l with
  | nil => intro cs x h; exact Or.inl h
  | cons y t ih =>
      intro cs x h
      simp only [dedupAppend, List.foldl_cons] at h
      by_cases hy : y ∈ cs
      · rw [if_pos hy] at h
        rcases ih cs x h with h2 | h2
        · exact Or.inl h2
        · exact Or.inr (List.mem_cons_of_mem y h2)
      · rw [if_neg hy] at h
        rcases ih (cs ++ [y]) x h with h2 | h2
        · rcases List.mem_append.mp h2 with h3 | h3
          · exact Or.inl h3
          · simp only [List.mem_singleton] at h3
            exact Or.inr (h3 ▸ List.mem_cons_self y t)
        · exact Or.inr (List.mem_cons_of_mem y h2)

lemma firstDedup_nodup (l : List String) : (firstDedup l).Nodup :=
  dedupAppend_nodup l [] List.nodup_nil

lemma mem_firstDedup {l : List String} {x : String}
    (h : x ∈ firstDedup l) : x ∈ l := by
  rcases mem_dedupAppend l [] x h with h2 | h2
  · simp at h2
  · exact h2

/-- The goal map never yields a WhatsApp template when the WhatsApp
agents are unavailable. -/
lemma goal_agent_map_sdk (pw : Bool) (g t : String)
    (h : goal_agent_map pw false g = some t) :
    t = "sleep_specialist" ∨ t = "stress_manager" ∨
      t = "fitness_coach" ∨ t = "nutrition_advisor" := by
  unfold goal_agent_map at h
  split_ifs at h <;> simp_all

/-- Every non-WhatsApp template tag yields the shared base display name
inherited from `WellnessAgentSDK.__init__`. -/
lemma sdk_display_name (t : String)
    (ht : t = "sleep_specialist" ∨ t = "stress_manager" ∨
      t = "fitness_coach" ∨ t = "nutrition_advisor") (u : String) :
    agent_display_name t u = "Wellness Agent for " ++ u := by
  rcases ht with rfl | rfl | rfl | rfl <;> rfl

lemma agent_key_sdk (s u m : String)
    (hs : agent_display_name s u = "Wellness Agent for " ++ u) :
    agent_key ⟨s, m⟩ u = "Wellness Agent for " ++ u ++ " (" ++ m ++ ")" := by
  unfold agent_key
  rw [hs]

lemma base_key_model_ne (u : String) :
    "Wellness Agent for " ++ u ++ " (" ++ "gpt-4.1" ++ ")" ≠
      "Wellness Agent for " ++ u ++ " (" ++ "gpt-4.1-mini" ++ ")" := by
  intro h
  have h2 := congrArg String.length h
  simp only [String.length_append] at h2
  have e1 : ("gpt-4.1" : String).length = 7 := rfl
  have e2 : ("gpt-4.1-mini" : String).length = 12 := rfl
  rw [e1, e2] at h2
  omega

lemma agents_filter_std (u : String) :
    ∀ (D : List String),
      (∀ s ∈ D, agent_display_name s u = "Wellness Agent for " ++ u) →
      (D.flatMap variant_pair).filter
          (fun a => agent_key a u ==
            "Wellness Agent for " ++ u ++ " (" ++ "gpt-4.1" ++ ")") =
        D.map (fun s => (⟨s, "gpt-4.1"⟩ : Variant)) := by
  intro D
  induction D with
  | nil => intro _; rfl
  | cons d t ih =>
      intro hD
      simp only [List.flatMap_cons, List.filter_append, List.map_cons]
      rw [ih (fun s hs => hD s (List.mem_cons_of_mem d hs))]
      have hk1 : agent_key ⟨d, "gpt-4.1"⟩ u =
          "Wellness Agent for " ++ u ++ " (" ++ "gpt-4.1" ++ ")" :=
        agent_key_sdk d u "gpt-4.1" (hD d (List.mem_cons_self d t))
      have hk2 : agent_key ⟨d, "gpt-4.1-mini"⟩ u =
          "Wellness Agent for " ++ u ++ " (" ++ "gpt-4.1-mini" ++ ")" :=
        agent_key_sdk d u "gpt-4.1-mini" (hD d (List.mem_cons_self d t))
      have hfl : List.filter
          (fun a => agent_key a u ==
            "Wellness Agent for " ++ u ++ " (" ++ "gpt-4.1" ++ ")")
          (variant_pair d) = [⟨d, "gpt-4.1"⟩] := by
        show List.filter
          (fun a => agent_key a u ==
            "Wellness Agent for " ++ u ++ " (" ++ "gpt-4.1" ++ ")")
          [⟨d, "gpt-4.1"⟩, ⟨d, "gpt-4.1-mini"⟩] = [⟨d, "gpt-4.1"⟩]
        rw [List.filter_cons_of_pos
            (p := fun a => agent_key a u ==
              "Wellness Agent for " ++ u ++ " (" ++ "gpt-4.1" ++ ")")
            (by simp [hk1]),
          List.filter_cons_of_neg
            (p := fun a => agent_key a u ==
              "Wellness Agent for " ++ u ++ " (" ++ "gpt-4.1" ++ ")")
            (by
              show ¬(agent_key ⟨d, "gpt-4.1-mini"⟩ u ==
                "Wellness Agent for " ++ u ++ " (" ++ "gpt-4.1" ++ ")") =
                true
              rw [hk2]
              simp only [beq_iff_eq]
              exact fun hh => base_key_model_ne u hh.symm)]
        rfl
      rw [hfl]
      rfl

lemma flatMap_variant_pair_length (D : List String) :
    (D.flatMap variant_pair).length = 2 * D.length := by
  induction D with
  | nil => rfl
  | cons d t ih =>
      simp only [List.flatMap_cons, List.length_append, List.length_cons,
        ih, variant_pair, List.length_nil]
      omega

lemma dictInsert_keys_forall {α : Type} {P : String → Prop}
    {m : List (String × α)} {k : String} {v : α}
    (hm : ∀ p ∈ m, P p.1) (hk : P k) :
    ∀ p ∈ dictInsert m k v, P p.1 := by
  induction m with
  | nil =>
      intro p hp
      simp only [dictInsert, List.mem_singleton] at hp
      rw [hp]
      exact hk
  | cons q rest ih =>
      intro p hp
      by_cases hq : q.1 = k
      · simp only [dictInsert, hq, if_true, List.mem_cons] at hp
        rcases hp with hp | hp
        · rw [hp]
          exact hk
        · exact hm p (List.mem_cons_of_mem q hp)
      · simp only [dictInsert, hq, if_false, List.mem_cons] at hp
        rcases hp with hp | hp
        · rw [hp]
          exact hm q (List.mem_cons_self q rest)
        · exact ih (fun r hr => hm r (List.mem_cons_of_mem q hr)) p hp

lemma dictInsert_keys_nodup {α : Type} {m : List (String × α)}
    (k : String) (v : α) (h : (m.map Prod.fst).Nodup) :
    ((dictInsert m k v).map Prod.fst).Nodup := by
  induction m with
  | nil => simp [dictInsert]
  | cons q rest ih =>
      by_cases hq : q.1 = k
      · simp only [dictInsert, hq, if_true, List.map_cons]
        simp only [List.map_cons] at h
        rw [← hq]
        exact h
      · simp only [dictInsert, hq, if_false, List.map_cons]
        simp only [List.map_cons, List.nodup_cons] at h
        rw [List.nodup_cons]
        refine ⟨?_, ih h.2⟩
        intro hmem
        obtain ⟨p, hp, hpq⟩ := List.mem_map.mp hmem
        have := dictInsert_keys_forall
          (P := fun s => s = k ∨ s ∈ rest.map Prod.fst)
          (fun r hr => Or.inr (List.mem_map.mpr ⟨r, hr, rfl⟩))
          (Or.inl rfl) p hp
        rcases this with h2 | h2
        · exact hq (hpq ▸ h2 ▸ rfl)
        · rw [hpq] at h2
          exact h.1 h2

lemma evaluate_agents_keys_forall (respond : Oracle)
    (scens : List Scenario) (u : String) (P : String → Prop) :
    ∀ (agents : List Variant)
      (acc : List (String × ℚ) × List (String × List TraceEntry)),
      (∀ a ∈ agents, P (agent_key a u)) → (∀ p ∈ acc.1, P p.1) →
      ∀ p ∈ (agents.foldl (evalStep respond scens u) acc).1, P p.1 := by
  intro agents
  induction agents with
  | nil => intro acc _ hacc; exact hacc
  | cons b bs ih =>
      intro acc hag hacc
      rw [List.foldl_cons]
      apply ih
      · intro a ha
        exact hag a (List.mem_cons_of_mem b ha)
      · exact dictInsert_keys_forall hacc (hag b (List.mem_cons_self b bs))

lemma evaluate_agents_keys_nodup (respond : Oracle)
    (scens : List Scenario) (u : String) :
    ∀ (agents : List Variant)
      (acc : List (String × ℚ) × List (String × List TraceEntry)),
      ((acc.1).map Prod.fst).Nodup →
      (((agents.foldl (evalStep respond scens u) acc).1).map
        Prod.fst).Nodup := by
  intro agents
  induction agents with
  | nil => intro acc h; exact h
  | cons b bs ih =>
      intro acc h
      rw [List.foldl_cons]
      exact ih _ (dictInsert_keys_nodup _ _ h)

lemma length_le_two_of_keys {l : List (String × ℚ)} (k1 k2 : String)
    (hn : (l.map Prod.fst).Nodup)
    (hs : ∀ p ∈ l, p.1 = k1 ∨ p.1 = k2) :
    l.length ≤ 2 := by
  have hsub : (l.map Prod.fst) ⊆ [k1, k2] := by
    intro x hx
    obtain ⟨p, hp, hpx⟩ := List.mem_map.mp hx
    rcases hs p hp with h | h <;> simp [← hpx, h]
  have hlen := (List.subperm_of_subset hn hsub).length_le
  simpa using hlen

lemma getLast?_mem_of_eq {α : Type} :
    ∀ {l : List α} {a : α}, l.getLast? = some a → a ∈ l := by
  intro l
  induction l with
  | nil => intro a h; simp at h
  | cons b t ih =>
      intro a h
      cases t with
      | nil =>
          simp only [List.getLast?_singleton, Option.some.injEq] at h
          rw [← h]
          exact List.mem_singleton_self b
      | cons c t2 =>
          rw [List.getLast?_cons_cons] at h
          exact List.mem_cons_of_mem b (ih h)

lemma getLast?_cons_of_ne_nil {α : Type} (b : α) {l : List α}
    (h : l ≠ []) : (b :: l).getLast? = l.getLast? := by
  cases l with
  | nil => exact absurd rfl h
  | cons c t => exact List.getLast?_cons_cons

lemma getLast?_map {α β : Type} (f : α → β) :
    ∀ (l : List α), (l.map f).getLast? = l.getLast?.map f := by
  intro l
  induction l with
  | nil => rfl
  | cons a t ih =>
      cases t with
      | nil => rfl
      | cons b t2 =>
          simp only [List.map_cons, List.getLast?_cons_cons]
          simpa using ih

/-- The score dict records, for each key, the average of the **last**
agent in iteration order whose key collides with it. -/
lemma evaluate_agents_scores_last (respond : Oracle)
    (scens : List Scenario) (u : String) (k : String) :
    ∀ (agents : List Variant)
      (acc : List (String × ℚ) × List (String × List TraceEntry)),
      dictFind? (agents.foldl (evalStep respond scens u) acc).1 k =
        ((agents.filter (fun a => agent_key a u == k)).getLast?).elim
          (dictFind? acc.1 k)
          (fun a => some (evaluate_agent respond a scens).1) := by
  intro agents
  induction agents with
  | nil => intro acc; simp
  | cons b bs ih =>
      intro acc
      rw [List.foldl_cons, ih]
      by_cases hfb : (agent_key b u == k) = true
      · rw [List.filter_cons_of_pos
          (p := fun a => agent_key a u == k) (l := bs) hfb]
        by_cases hbs : bs.filter (fun a => agent_key a u == k) = []
        · rw [hbs]
          simp only [List.getLast?_nil, List.getLast?_singleton,
            Option.elim]
          simp only [evalStep]
          rw [dictFind?_dictInsert]
          rw [if_pos (eq_of_beq hfb).symm]
        · obtain ⟨a, ha⟩ : ∃ a,
              (bs.filter (fun a => agent_key a u == k)).getLast? =
                some a := by
            cases h2 : (bs.filter
                (fun a => agent_key a u == k)).getLast? with
            | none =>
                rw [List.getLast?_eq_none_iff] at h2
                exact absurd h2 hbs
            | some a => exact ⟨a, rfl⟩
          rw [ha, getLast?_cons_of_ne_nil b hbs, ha]
          simp
      · rw [List.filter_cons_of_neg
          (p := fun a => agent_key a u == k) (l := bs) (by simpa using hfb)]
        cases h2 : (bs.filter (fun a => agent_key a u == k)).getLast? with
        | some a => simp [h2]
        | none =>
            simp only [h2, Option.elim]
            simp only [evalStep]
            rw [dictFind?_dictInsert]
            rw [if_neg (by
              intro hh
              exact hfb (by simp [hh]))]

/-- C10: with the SDK agent classes (WhatsApp templates unavailable),
every specialty shares the display name `"Wellness Agent for <user>"`,
so for any profile whose goals map to two or more distinct specialties,
two distinct same-tier variants collide on the evaluation key
`"name (model)"`: the score dict has strictly fewer entries than there
are variants, and the entry under the shared key holds the average of
the **last** colliding variant, overwriting the earlier one's. -/
theorem c10_shared_keys_overwrite (respond : Oracle)
    (scens : List Scenario) (goals : List String) (pw : Bool)
    (u : String)
    (hD : 2 ≤ (firstDedup
      (goals.filterMap (goal_agent_map pw false))).length) :
    ∃ v1 v2 : Variant,
      v1 ∈ generate_agent_suite goals pw false ∧
      v2 ∈ generate_agent_suite goals pw false ∧
      v1 ≠ v2 ∧
      v1.model = v2.model ∧
      agent_key v1 u = agent_key v2 u ∧
      (evaluate_agents respond (generate_agent_suite goals pw false)
        scens u).1.length <
        (generate_agent_suite goals pw false).length ∧
      (∃ dlast : String,
        (firstDedup
          (goals.filterMap (goal_agent_map pw false))).getLast? =
            some dlast ∧
        (⟨dlast, "gpt-4.1"⟩ : Variant) ≠ v1 ∧
        dictFind? (evaluate_agents respond
            (generate_agent_suite goals pw false) scens u).1
          (agent_key v1 u) =
          some (evaluate_agent respond ⟨dlast, "gpt-4.1"⟩ scens).1) := by
  set D := firstDedup (goals.filterMap (goal_agent_map pw false))
    with hDdef
  clear_value D
  have hDne : D ≠ [] := by
    intro h
    rw [h] at hD
    simp at hD
  have hag : generate_agent_suite goals pw false =
      D.flatMap variant_pair := by
    rw [generate_agent_suite_eq, ← hDdef, if_neg hDne]
  have hnd : D.Nodup := by
    rw [hDdef]
    exact firstDedup_nodup _
  have hsdk : ∀ s ∈ D,
      agent_display_name s u = "Wellness Agent for " ++ u := by
    intro s hs
    rw [hDdef] at hs
    obtain ⟨g, _, hg⟩ := List.mem_filterMap.mp (mem_firstDedup hs)
    exact sdk_display_name s (goal_agent_map_sdk pw g s hg) u
  obtain ⟨d0, D1, hD0⟩ : ∃ d0 D1, D = d0 :: D1 := by
    cases D with
    | nil => exact absurd rfl hDne
    | cons a b => exact ⟨a, b, rfl⟩
  obtain ⟨d1, D2, hD1⟩ : ∃ d1 D2, D1 = d1 :: D2 := by
    cases D1 with
    | nil =>
        rw [hD0] at hD
        simp at hD
    | cons a b => exact ⟨a, b, rfl⟩
  have hd0m : d0 ∈ D := by
    rw [hD0]
    exact List.mem_cons_self d0 D1
  have hd1m : d1 ∈ D := by
    rw [hD0, hD1]
    exact List.mem_cons_of_mem d0 (List.mem_cons_self d1 D2)
  have hd01 : d0 ≠ d1 := by
    have hnd2 : (d0 :: d1 :: D2).Nodup := by
      rw [← hD1, ← hD0]
      exact hnd
    have hnot := (List.nodup_cons.mp hnd2).1
    intro h
    exact hnot (h ▸ List.mem_cons_self d1 D2)
  have hk0 : agent_key ⟨d0, "gpt-4.1"⟩ u =
      "Wellness Agent for " ++ u ++ " (" ++ "gpt-4.1" ++ ")" :=
    agent_key_sdk d0 u "gpt-4.1" (hsdk d0 hd0m)
  have hk1 : agent_key ⟨d1, "gpt-4.1"⟩ u =
      "Wellness Agent for " ++ u ++ " (" ++ "gpt-4.1" ++ ")" :=
    agent_key_sdk d1 u "gpt-4.1" (hsdk d1 hd1m)
  refine ⟨⟨d0, "gpt-4.1"⟩, ⟨d1, "gpt-4.1"⟩, ?_, ?_, ?_, rfl, ?_, ?_, ?_⟩
  · rw [hag]
    exact List.mem_flatMap.mpr ⟨d0, hd0m, by simp [variant_pair]⟩
  · rw [hag]
    exact List.mem_flatMap.mpr ⟨d1, hd1m, by simp [variant_pair]⟩
  · intro h
    exact hd01 (congrArg Variant.agent_type h)
  · rw [hk0, hk1]
  · -- strictly fewer score entries than variants
    have hkeys : ∀ a ∈ D.flatMap variant_pair,
        agent_key a u =
            "Wellness Agent for " ++ u ++ " (" ++ "gpt-4.1" ++ ")" ∨
          agent_key a u =
            "Wellness Agent for " ++ u ++ " (" ++ "gpt-4.1-mini" ++ ")" := by
      intro a ha
      obtain ⟨s, hsD, hsa⟩ := List.mem_flatMap.mp ha
      have hdisp := hsdk s hsD
      simp only [variant_pair, List.mem_cons, List.mem_singleton,
        List.not_mem_nil, or_false] at hsa
      rcases hsa with rfl | rfl
      · exact Or.inl (agent_key_sdk s u "gpt-4.1" hdisp)
      · exact Or.inr (agent_key_sdk s u "gpt-4.1-mini" hdisp)
    have hsub := evaluate_agents_keys_forall respond scens u
      (fun s => s = "Wellness Agent for " ++ u ++ " (" ++ "gpt-4.1" ++ ")" ∨
        s = "Wellness Agent for " ++ u ++ " (" ++ "gpt-4.1-mini" ++ ")")
      (D.flatMap variant_pair) ([], []) hkeys (by simp)
    have hndk := evaluate_agents_keys_nodup respond scens u
      (D.flatMap variant_pair) ([], []) (by simp)
    have hlen2 := length_le_two_of_keys _ _ hndk hsub
    have hflen := flatMap_variant_pair_length D
    have hDlen : 2 ≤ D.length := by
      rw [hDdef] at hD ⊢
      exact hD
    rw [hag]
    show (List.foldl (evalStep respond scens u) ([], [])
      (D.flatMap variant_pair)).1.length < (D.flatMap variant_pair).length
    omega
  · obtain ⟨dlast, hdl⟩ : ∃ x, D.getLast? = some x := by
      cases h2 : D.getLast? with
      | none =>
          rw [List.getLast?_eq_none_iff] at h2
          exact absurd h2 hDne
      | some x => exact ⟨x, rfl⟩
    refine ⟨dlast, hdl, ?_, ?_⟩
    · have hdmem : dlast ∈ D1 := by
        have hdl2 : (d0 :: d1 :: D2).getLast? = some dlast := by
          rw [← hD1, ← hD0]
          exact hdl
        rw [List.getLast?_cons_cons] at hdl2
        rw [hD1]
        exact getLast?_mem_of_eq hdl2
      have hd0n : d0 ∉ D1 := by
        have hnd2 : (d0 :: D1).Nodup := by
          rw [← hD0]
          exact hnd
        exact (List.nodup_cons.mp hnd2).1
      intro h
      have hda : dlast = d0 := congrArg Variant.agent_type h
      rw [hda] at hdmem
      exact hd0n hdmem
    · rw [hag]
      show dictFind? (List.foldl (evalStep respond scens u) ([], [])
        (D.flatMap variant_pair)).1 (agent_key ⟨d0, "gpt-4.1"⟩ u) =
        some (evaluate_agent respond ⟨dlast, "gpt-4.1"⟩ scens).1
      rw [evaluate_agents_scores_last, hk0, agents_filter_std u D hsdk,
        getLast?_map, hdl]
      rfl

/-- C10 witness: goals `better_sleep` and `stress_reduction` map to two
distinct specialties, so the hypothesis holds at a concrete profile. -/
theorem c10_shared_keys_overwrite_witness :
    (2 ≤ (firstDedup ((["better_sleep", "stress_reduction"] :
      List String).filterMap (goal_agent_map false false))).length) ∧
    (∃ v1 v2 : Variant,
      v1 ∈ generate_agent_suite ["better_sleep", "stress_reduction"]
        false false ∧
      v2 ∈ generate_agent_suite ["better_sleep", "stress_reduction"]
        false false ∧
      v1 ≠ v2 ∧
      v1.model = v2.model ∧
      agent_key v1 "Maya" = agent_key v2 "Maya" ∧
      (evaluate_agents oracle_fail
        (generate_agent_suite ["better_sleep", "stress_reduction"]
          false false) [] "Maya").1.length <
        (generate_agent_suite ["better_sleep", "stress_reduction"]
          false false).length ∧
      (∃ dlast : String,
        (firstDedup ((["better_sleep", "stress_reduction"] :
          List String).filterMap (goal_agent_map false false))).getLast? =
            some dlast ∧
        (⟨dlast, "gpt-4.1"⟩ : Variant) ≠ v1 ∧
        dictFind? (evaluate_agents oracle_fail
            (generate_agent_suite ["better_sleep", "stress_reduction"]
              false false) [] "Maya").1
          (agent_key v1 "Maya") =
          some (evaluate_agent oracle_fail ⟨dlast, "gpt-4.1"⟩ []).1)) :=
  ⟨by decide,
    c10_shared_keys_overwrite oracle_fail []
      ["better_sleep", "stress_reduction"] false "Maya" (by decide)⟩

/-- C9: the computed reward dimensions: task completion is the completed
fraction (`0` on an empty log), engagement, timing and efficiency are the
fixed constants `0.85`, `0.9`, `0.8`, and safety is `1.0` unless some
entry's rendering mentions `"approval"`, in which case `0.95`. -/
theorem c9_reward_dimensions (actions : List ActionEntry) :
    (calculate_daily_rewards actions).task_completion =
      (if actions = [] then 0 else
        ((actions.countP (fun a => a.status == "completed")) : ℚ) /
          (actions.length : ℚ)) ∧
    (calculate_daily_rewards actions).user_engagement = 85/100 ∧
    (calculate_daily_rewards actions).timing_accuracy = 9/10 ∧
    (calculate_daily_rewards actions).resource_efficiency = 8/10 ∧
    (calculate_daily_rewards actions).safety_compliance =
      (if actions.any (fun a => containsCI a.render "approval") then 95/100
        else 1) := by
  refine ⟨rfl, rfl, rfl, rfl, ?_⟩
  show evaluate_safety actions = _
  unfold evaluate_safety
  by_cases h : actions.any (fun a => containsCI a.render "approval")
  · have : actions.filter (fun a => containsCI a.render "approval") ≠ [] := by
      rw [List.any_eq_true] at h
      obtain ⟨a, ha, hpa⟩ := h
      intro hnil
      have := List.filter_eq_nil_iff.mp hnil a ha
      simp [hpa] at this
    simp [h, this]
  · have : actions.filter (fun a => containsCI a.render "approval") = [] := by
      rw [List.filter_eq_nil_iff]
      intro a ha hpa
      exact h (List.any_eq_true.mpr ⟨a, ha, hpa⟩)
    simp [h, this]

end Ambient
